import Mathlib

/-!
Verification of the networks-blackjack repository: a shallow embedding of
the client strategy module (`client/strategy.py`), the server round engine
(`server/game.py`) and the wire codec (`common/protocol.py`), with theorems
settling the specification claims.

Conventions of the embedding:
* Python ints holding ranks, suits, results and byte values become `Nat`;
  the client's card counts become `Int` (so that non-negativity is a real
  property, not a typing artifact).
* Python float probabilities become `ℚ`.  The probabilities computed by the
  code are quotients `b / t` with `0 ≤ b ≤ t ≤ 52`, and the thresholds are
  the literals 0.55, 0.40, 0.45; the gap between any two distinct such
  rationals is far larger than double-precision rounding error, so every
  comparison performed on floats by the Python code agrees with the exact
  rational comparison modeled here.
* Fallible operations (list indexing that can raise `IndexError`,
  validation that can raise `ValueError`, decoders returning `None`)
  become `Option`.
-/

namespace Strategy

/-- `bj_value` from client/strategy.py: blackjack value of a rank
(Ace = 1, 2..10 face value, J/Q/K = 10). -/
def bj_value (rank : Nat) : Nat :=
  if rank = 1 then 1
  else if 2 ≤ rank ∧ rank ≤ 10 then rank
  else 10

/-- `hand_value` from client/strategy.py: total of the per-rank blackjack
values, with one Ace upgraded from 1 to 11 (adding 10) when the hand has an
Ace and the upgraded total stays at most 21; the Bool is the softness flag. -/
def hand_value (ranks : List Nat) : Nat × Bool :=
  let total := (ranks.map bj_value).sum
  let aces := (ranks.filter (fun r => r = 1)).length
  if aces > 0 ∧ total + 10 ≤ 21 then (total + 10, true) else (total, false)

/-- `DeckCounter` from client/strategy.py: a `collections.Counter` mapping
each rank to its remaining count.  The Python `Counter` answers 0 for keys
it does not hold and the class only ever creates keys 1..13, so the counts
are modeled as a total function on ranks.  Counts are `Int` because Python
ints are unbounded; the floor-at-zero behavior is then a theorem. -/
structure DeckCounter where
  counts : Nat → Int

/-- The key set of the `Counter`: ranks 1..13, in insertion order. -/
def rankKeys : List Nat := (List.range 13).map (· + 1)

/-- `DeckCounter.__init__`: every rank 1..13 starts at count 4. -/
def DeckCounter.init : DeckCounter :=
  ⟨fun r => if 1 ≤ r ∧ r ≤ 13 then 4 else 0⟩

/-- `DeckCounter.remove_seen`: decrement the rank's count only when it is
positive. -/
def DeckCounter.remove_seen (d : DeckCounter) (rank : Nat) : DeckCounter :=
  ⟨fun r => if r = rank ∧ d.counts rank > 0 then d.counts rank - 1 else d.counts r⟩

/-- `DeckCounter.total_remaining`: sum of the counts of all 13 ranks. -/
def DeckCounter.total_remaining (d : DeckCounter) : Int :=
  (rankKeys.map d.counts).sum

/-- `DeckCounter.bust_probability_if_hit`: 0 when no cards remain, else the
total count of the ranks whose hypothetical draw pushes the hand total past
21, divided by the total remaining count. -/
def DeckCounter.bust_probability_if_hit (d : DeckCounter) (player_ranks : List Nat) : ℚ :=
  let total_cards := d.total_remaining
  if total_cards = 0 then 0
  else
    let bust := (rankKeys.map (fun rank =>
      if d.counts rank > 0 ∧ (hand_value (player_ranks ++ [rank])).1 > 21
      then d.counts rank else 0)).sum
    (bust : ℚ) / (total_cards : ℚ)

/-- `choose_decision` from client/strategy.py. -/
def choose_decision (player_ranks : List Nat) (dealer_up_rank : Option Nat)
    (deck : DeckCounter) : String :=
  let tv := hand_value player_ranks
  if tv.1 ≤ 11 then "Hittt"
  else if 17 ≤ tv.1 ∧ tv.2 = false then "Stand"
  else if 18 ≤ tv.1 ∧ tv.2 = true then "Stand"
  else
    let p_bust := deck.bust_probability_if_hit player_ranks
    let threshold : ℚ :=
      match dealer_up_rank with
      | none => 45 / 100
      | some r => if r = 1 ∨ r = 10 ∨ r = 11 ∨ r = 12 ∨ r = 13 ∨ r = 9 ∨ r = 8 ∨ r = 7
                  then 55 / 100 else 40 / 100
    if p_bust ≤ threshold then "Hittt" else "Stand"

end Strategy

namespace Game

/-- The wire result codes from server/game.py. -/
def RESULT_NOT_OVER : Nat := 0x0

/-- Result code for a tie. -/
def RESULT_TIE : Nat := 0x1

/-- Result code for a player loss. -/
def RESULT_LOSS : Nat := 0x2

/-- Result code for a player win. -/
def RESULT_WIN : Nat := 0x3

/-- `Card` from server/game.py: rank 1..13 (Ace=1, J=11, Q=12, K=13) and
suit 0..3. -/
structure Card where
  rank : Nat
  suit : Nat
deriving DecidableEq, Repr

/-- `Deck` from server/game.py.  `Deck.draw` in the source never fails: when
the card list is exhausted, `reset()` refills it with a freshly shuffled full
52-card pack and drawing proceeds.  The deck is therefore embedded as the
infinite sequence of cards it will ever hand out (an arbitrary stream,
covering every shuffle outcome), together with the position of the next
draw. -/
structure Deck where
  stream : Nat → Card
  pos : Nat

/-- `Deck.draw`: return the next card of the stream and advance. -/
def Deck.draw (d : Deck) : Card × Deck :=
  (d.stream d.pos, ⟨d.stream, d.pos + 1⟩)

/-- `card_value_for_hand` from server/game.py: blackjack value of a rank,
the Ace being handled in `hand_value`. -/
def card_value_for_hand (rank : Nat) : Nat :=
  if rank = 1 then 1
  else if 2 ≤ rank ∧ rank ≤ 10 then rank
  else 10

/-- `hand_value` from server/game.py: count every Ace as 1, then upgrade
one Ace from 1 to 11 (adding 10) when that keeps the total at most 21;
the Bool is the softness flag. -/
def hand_value (hand : List Card) : Nat × Bool :=
  let total := (hand.map (fun c => card_value_for_hand c.rank)).sum
  let aces := (hand.filter (fun c => c.rank = 1)).length
  if aces > 0 ∧ total + 10 ≤ 21 then (total + 10, true) else (total, false)

/-- The round phases of `BlackjackRound` ("INIT" → "PLAYER" → "DEALER" →
"OVER" in the source's string encoding). -/
inductive Phase where
  | INIT : Phase
  | PLAYER : Phase
  | DEALER : Phase
  | OVER : Phase
deriving DecidableEq, Repr

/-- `BlackjackRound` from server/game.py: the deck it borrows, the two
hands and the phase. -/
structure BlackjackRound where
  deck : Deck
  player : List Card
  dealer : List Card
  phase : Phase

/-- `BlackjackRound.start`: draw two cards for the player then two for the
dealer, enter the PLAYER phase, and report player[0], player[1] and the
dealer's upcard dealer[0]. -/
def BlackjackRound.start (r : BlackjackRound) : List Card × BlackjackRound :=
  let (p1, d1) := r.deck.draw
  let (p2, d2) := d1.draw
  let (c1, d3) := d2.draw
  let (c2, d4) := d3.draw
  ([p1, p2, c1], ⟨d4, [p1, p2], [c1, c2], Phase.PLAYER⟩)

/-- `BlackjackRound.player_hit`: draw one card into the player's hand. -/
def BlackjackRound.player_hit (r : BlackjackRound) : Card × BlackjackRound :=
  let (c, d') := r.deck.draw
  (c, ⟨d', r.player ++ [c], r.dealer, r.phase⟩)

/-- `BlackjackRound.dealer_draw`: draw one card into the dealer's hand. -/
def BlackjackRound.dealer_draw (r : BlackjackRound) : Card × BlackjackRound :=
  let (c, d') := r.deck.draw
  (c, ⟨d', r.player, r.dealer ++ [c], r.phase⟩)

/-- `BlackjackRound._final_result`: player bust first, then dealer bust,
then the strict comparison of totals, else a tie. -/
def BlackjackRound.final_result (r : BlackjackRound) : Nat :=
  let p_total := (hand_value r.player).1
  let d_total := (hand_value r.dealer).1
  if p_total > 21 then RESULT_LOSS
  else if d_total > 21 then RESULT_WIN
  else if p_total > d_total then RESULT_WIN
  else if p_total < d_total then RESULT_LOSS
  else RESULT_TIE

/-- The tail of `apply_decision` from the `if self.phase == "DEALER":` line
on, reached with the events accumulated so far (`out1`).  In the DEALER
phase the `while True:` loop of the source returns on every path of its
first iteration, so it is one step: emit the final result on the dealer's
last card when the dealer total is at least 17, else draw one dealer card.
Outside the DEALER phase the already-over tail runs: re-emit the final
result on the last card of the dealer's hand, or of the player's when the
dealer's is empty.  The `Option` is `none` exactly when the source would
raise `IndexError` on a `[-1]` access to an empty hand. -/
def BlackjackRound.dealer_or_over (out1 : List (Nat × Card)) (r : BlackjackRound) :
    Option (List (Nat × Card) × BlackjackRound) :=
  if r.phase = Phase.DEALER then
    if (hand_value r.dealer).1 ≥ 17 then
      match r.dealer.getLast? with
      | none => none
      | some last => some (out1 ++ [(r.final_result, last)],
          ⟨r.deck, r.player, r.dealer, Phase.OVER⟩)
    else
      let (c, r') := r.dealer_draw
      some (out1 ++ [(RESULT_NOT_OVER, c)], r')
  else
    match (if r.dealer ≠ [] then r.dealer.getLast? else r.player.getLast?) with
    | none => none
    | some last => some (out1 ++ [(r.final_result, last)], r)

/-- `BlackjackRound.apply_decision`: outside the PLAYER phase the decision
is forced to "Stand"; in the PLAYER phase "Hittt" draws a player card and
returns at once, while "Stand" switches to the DEALER phase and appends the
hole-card reveal before falling through — exactly as the source does — to
the DEALER/over tail `dealer_or_over`. -/
def BlackjackRound.apply_decision (r : BlackjackRound) (decision0 : String) :
    Option (List (Nat × Card) × BlackjackRound) :=
  let decision := if r.phase = Phase.PLAYER then decision0 else "Stand"
  if r.phase = Phase.PLAYER ∧ decision = "Hittt" then
    let (c, r') := r.player_hit
    if (hand_value r'.player).1 > 21 then
      some ([(RESULT_LOSS, c)], ⟨r'.deck, r'.player, r'.dealer, Phase.OVER⟩)
    else
      some ([(RESULT_NOT_OVER, c)], r')
  else if r.phase = Phase.PLAYER ∧ decision = "Stand" then
    match r.dealer.get? 1 with
    | none => none
    | some hole =>
        BlackjackRound.dealer_or_over [(RESULT_NOT_OVER, hole)]
          ⟨r.deck, r.player, r.dealer, Phase.DEALER⟩
  else
    BlackjackRound.dealer_or_over [] r

end Game

namespace Protocol

/-- The protocol magic cookie from common/constants.py. -/
def PROTOCOL_MAGIC_COOKIE : Nat := 0xabcddcba

/-- Message type tag of an Offer. -/
def MSG_TYPE_OFFER : Nat := 0x2

/-- Message type tag of a Request. -/
def MSG_TYPE_REQUEST : Nat := 0x3

/-- Message type tag of a payload (both directions). -/
def MSG_TYPE_PAYLOAD : Nat := 0x4

/-- Total size of an Offer message. -/
def OFFER_MESSAGE_BYTES : Nat := 39

/-- Total size of a Request message. -/
def REQUEST_MESSAGE_BYTES : Nat := 38

/-- Total size of a client decision payload message. -/
def CLIENT_PAYLOAD_MESSAGE_BYTES : Nat := 10

/-- Total size of a server payload message. -/
def SERVER_PAYLOAD_MESSAGE_BYTES : Nat := 9

/-- Byte `i` of a buffer (buffers are lists of byte values; a read past the
end, which the guarded source never performs, yields 0 rather than tearing). -/
def byteAt (data : List Nat) (i : Nat) : Nat := data.getD i 0

/-- The big-endian 32-bit word at the front of a buffer (`struct` format
`!I`), which every decoder compares against the magic cookie. -/
def be32 (data : List Nat) : Nat :=
  byteAt data 0 * 0x1000000 + byteAt data 1 * 0x10000 + byteAt data 2 * 0x100 + byteAt data 3

/-- The big-endian 16-bit word at offset `i` (`struct` format `!H`). -/
def be16 (data : List Nat) (i : Nat) : Nat :=
  byteAt data i * 0x100 + byteAt data (i + 1)

/-- The big-endian byte pair of a 16-bit value, as `struct.pack "!H"` lays
it out. -/
def u16be (n : Nat) : List Nat := [n / 0x100 % 0x100, n % 0x100]

/-- The magic cookie as the four bytes `struct.pack "!I"` produces. -/
def cookieBytes : List Nat := [0xab, 0xcd, 0xdc, 0xba]

/-- `encode_fixed_name_32`: truncate the encoded name to 32 bytes and pad
with zero bytes up to exactly 32. -/
def encode_fixed_name_32 (name : List Nat) : List Nat :=
  name.take 32 ++ List.replicate (32 - (name.take 32).length) 0

/-- `decode_fixed_name_32`: the bytes before the first zero byte. -/
def decode_fixed_name_32 (raw : List Nat) : List Nat :=
  raw.takeWhile (fun b => b ≠ 0)

/-- `pack_offer`: cookie, tag 0x2, TCP port as u16, 32-byte name field;
`none` models the `ValueError` on a port that does not fit two bytes. -/
def pack_offer (server_tcp_port : Nat) (server_name : List Nat) : Option (List Nat) :=
  if server_tcp_port ≤ 0xFFFF then
    some (cookieBytes ++ [MSG_TYPE_OFFER] ++ u16be server_tcp_port ++
      encode_fixed_name_32 server_name)
  else none

/-- `unpack_offer`: length, cookie and tag checks, then the port and name. -/
def unpack_offer (data : List Nat) : Option (Nat × List Nat) :=
  if data.length ≠ OFFER_MESSAGE_BYTES then none
  else if be32 data ≠ PROTOCOL_MAGIC_COOKIE then none
  else if byteAt data 4 ≠ MSG_TYPE_OFFER then none
  else some (be16 data 5, decode_fixed_name_32 (data.drop 7))

/-- `pack_request`: cookie, tag 0x3, round count as u8, 32-byte name field;
`none` models the `ValueError` on a round count outside one byte. -/
def pack_request (rounds : Nat) (client_team_name : List Nat) : Option (List Nat) :=
  if rounds ≤ 255 then
    some (cookieBytes ++ [MSG_TYPE_REQUEST] ++ [rounds] ++
      encode_fixed_name_32 client_team_name)
  else none

/-- `unpack_request`: length, cookie, tag and round-range checks, then the
round count and name. -/
def unpack_request (data : List Nat) : Option (Nat × List Nat) :=
  if data.length ≠ REQUEST_MESSAGE_BYTES then none
  else if be32 data ≠ PROTOCOL_MAGIC_COOKIE then none
  else if byteAt data 4 ≠ MSG_TYPE_REQUEST then none
  else if ¬ byteAt data 5 ≤ 255 then none
  else some (byteAt data 5, decode_fixed_name_32 (data.drop 6))

/-- The five ASCII bytes of the decision literal "Hittt". -/
def hitttBytes : List Nat := [0x48, 0x69, 0x74, 0x74, 0x74]

/-- The five ASCII bytes of the decision literal "Stand". -/
def standBytes : List Nat := [0x53, 0x74, 0x61, 0x6e, 0x64]

/-- `pack_client_payload_decision`: cookie, tag 0x4, the five decision
bytes; `none` models the `ValueError` on any other decision string. -/
def pack_client_payload_decision (decision : String) : Option (List Nat) :=
  if decision = "Hittt" then some (cookieBytes ++ [MSG_TYPE_PAYLOAD] ++ hitttBytes)
  else if decision = "Stand" then some (cookieBytes ++ [MSG_TYPE_PAYLOAD] ++ standBytes)
  else none

/-- `unpack_client_payload_decision`: length, cookie and tag checks, then
the decision bytes must equal one of the two literals.  (The source decodes
the five bytes as ASCII with replacement and compares the resulting string;
for these two all-ASCII literals that is exactly byte equality.) -/
def unpack_client_payload_decision (data : List Nat) : Option String :=
  if data.length ≠ CLIENT_PAYLOAD_MESSAGE_BYTES then none
  else if be32 data ≠ PROTOCOL_MAGIC_COOKIE then none
  else if byteAt data 4 ≠ MSG_TYPE_PAYLOAD then none
  else if data.drop 5 = hitttBytes then some "Hittt"
  else if data.drop 5 = standBytes then some "Stand"
  else none

/-- The decoded fields of a server payload. -/
structure ServerPayload where
  result : Nat
  rank : Nat
  suit : Nat
deriving DecidableEq, Repr

/-- `pack_server_payload`: cookie, tag 0x4, result as u8, rank as big-endian
u16, suit as u8; `none` models the `ValueError`s on out-of-range fields. -/
def pack_server_payload (result rank suit : Nat) : Option (List Nat) :=
  if result ≤ 3 then
    if 1 ≤ rank ∧ rank ≤ 13 then
      if suit ≤ 3 then
        some (cookieBytes ++ [MSG_TYPE_PAYLOAD] ++ [result] ++ u16be rank ++ [suit])
      else none
    else none
  else none

/-- `unpack_server_payload`: length, cookie, tag and field-range checks,
then the three fields. -/
def unpack_server_payload (data : List Nat) : Option ServerPayload :=
  if data.length ≠ SERVER_PAYLOAD_MESSAGE_BYTES then none
  else if be32 data ≠ PROTOCOL_MAGIC_COOKIE then none
  else if byteAt data 4 ≠ MSG_TYPE_PAYLOAD then none
  else if ¬ (byteAt data 5 ≤ 3 ∧ 1 ≤ be16 data 6 ∧ be16 data 6 ≤ 13 ∧ byteAt data 8 ≤ 3)
    then none
  else some ⟨byteAt data 5, be16 data 6, byteAt data 8⟩

end Protocol

section HandValue

/-- The per-card blackjack values produced by the client's `bj_value` and
the server's `card_value_for_hand` are the same function. -/
theorem bj_value_eq_card_value (r : Nat) :
    Strategy.bj_value r = Game.card_value_for_hand r := rfl

/-- Raw totals agree between a card hand and its rank image. -/
theorem hand_rank_sum (hand : List Game.Card) :
    ((hand.map Game.Card.rank).map Strategy.bj_value).sum
      = (hand.map (fun c => Game.card_value_for_hand c.rank)).sum := by
  induction hand with
  | nil => rfl
  | cons c t ih =>
      simp only [List.map_cons, List.sum_cons, ih]
      rfl

/-- Ace counts agree between a card hand and its rank image. -/
theorem hand_rank_aces (hand : List Game.Card) :
    ((hand.map Game.Card.rank).filter (fun r => r = 1)).length
      = (hand.filter (fun c => c.rank = 1)).length := by
  induction hand with
  | nil => rfl
  | cons c t ih =>
      by_cases h : c.rank = 1 <;> simp [h, ih]

/-- A hand has a positive ace count exactly when 1 occurs among its ranks. -/
theorem aces_pos_iff_mem (hand : List Game.Card) :
    0 < (hand.filter (fun c => c.rank = 1)).length ↔ 1 ∈ hand.map Game.Card.rank := by
  rw [List.length_pos]
  constructor
  · intro h
    obtain ⟨c, hc⟩ := List.exists_mem_of_ne_nil _ h
    have := List.mem_filter.1 hc
    exact List.mem_map.2 ⟨c, this.1, by simpa using this.2⟩
  · intro h
    obtain ⟨c, hc, hr⟩ := List.mem_map.1 h
    intro hnil
    have : c ∈ hand.filter (fun c => c.rank = 1) :=
      List.mem_filter.2 ⟨hc, by simpa using hr⟩
    simp [hnil] at this

/-- C6: `hand_value` is the sum of per-card blackjack values (Ace=1, 2-10
face value, J/Q/K=10) with one Ace promoted from 1 to 11 exactly when the
hand contains an Ace and the promoted total stays at most 21, the softness
flag recording whether the promotion was applied; [Ace, 9] gives (20, soft)
and [Ace, 9, 5] gives (15, hard); and the server-side `hand_value` over
cards and the client-side `hand_value` over rank lists compute the same
function. -/
theorem claim_C6_hand_value (hand : List Game.Card) :
    Game.hand_value hand = Strategy.hand_value (hand.map Game.Card.rank) ∧
    Game.hand_value hand =
      (if 1 ∈ hand.map Game.Card.rank ∧
          (hand.map (fun c => Game.card_value_for_hand c.rank)).sum + 10 ≤ 21
       then ((hand.map (fun c => Game.card_value_for_hand c.rank)).sum + 10, true)
       else ((hand.map (fun c => Game.card_value_for_hand c.rank)).sum, false)) ∧
    Game.hand_value [⟨1, 0⟩, ⟨9, 1⟩] = (20, true) ∧
    Game.hand_value [⟨1, 0⟩, ⟨9, 1⟩, ⟨5, 2⟩] = (15, false) := by
  refine ⟨?_, ?_, by decide, by decide⟩
  · unfold Game.hand_value Strategy.hand_value
    rw [hand_rank_sum, hand_rank_aces]
  · unfold Game.hand_value
    have hiff : 0 < (hand.filter (fun c => c.rank = 1)).length ∧
          (hand.map (fun c => Game.card_value_for_hand c.rank)).sum + 10 ≤ 21 ↔
        1 ∈ hand.map Game.Card.rank ∧
          (hand.map (fun c => Game.card_value_for_hand c.rank)).sum + 10 ≤ 21 :=
      and_congr_left (fun _ => aces_pos_iff_mem hand)
    simp only [gt_iff_lt]
    rw [if_congr hiff rfl rfl]

end HandValue

section FinalResult

/-- C3: the final result is computed in the fixed order player-bust first
(a loss even when the dealer also busts), then dealer bust (a win), then
the strict comparison of the totals, equal totals tying. -/
theorem claim_C3_final_result (r : Game.BlackjackRound) :
    ((Game.hand_value r.player).1 > 21 → r.final_result = Game.RESULT_LOSS) ∧
    ((Game.hand_value r.player).1 ≤ 21 → (Game.hand_value r.dealer).1 > 21 →
      r.final_result = Game.RESULT_WIN) ∧
    ((Game.hand_value r.player).1 ≤ 21 → (Game.hand_value r.dealer).1 ≤ 21 →
      (Game.hand_value r.player).1 > (Game.hand_value r.dealer).1 →
      r.final_result = Game.RESULT_WIN) ∧
    ((Game.hand_value r.player).1 ≤ 21 → (Game.hand_value r.dealer).1 ≤ 21 →
      (Game.hand_value r.player).1 < (Game.hand_value r.dealer).1 →
      r.final_result = Game.RESULT_LOSS) ∧
    ((Game.hand_value r.player).1 ≤ 21 → (Game.hand_value r.dealer).1 ≤ 21 →
      (Game.hand_value r.player).1 = (Game.hand_value r.dealer).1 →
      r.final_result = Game.RESULT_TIE) := by
  unfold Game.BlackjackRound.final_result
  refine ⟨?_, ?_, ?_, ?_, ?_⟩ <;>
    · intros
      dsimp only
      split_ifs <;> first | rfl | omega

/-- A deck stream used only to build concrete rounds for witnesses. -/
def constDeck : Game.Deck := ⟨fun _ => ⟨2, 0⟩, 0⟩

/-- Witness for C3 on the branch the claim singles out: a player bust is a
loss even though the dealer busted as well. -/
theorem claim_C3_witness :
    (Game.hand_value [⟨10, 0⟩, ⟨10, 1⟩, ⟨2, 2⟩]).1 > 21 ∧
    (Game.BlackjackRound.mk constDeck [⟨10, 0⟩, ⟨10, 1⟩, ⟨2, 2⟩]
        [⟨10, 3⟩, ⟨10, 2⟩, ⟨5, 0⟩] Game.Phase.OVER).final_result = Game.RESULT_LOSS :=
  ⟨by decide,
    (claim_C3_final_result (Game.BlackjackRound.mk constDeck [⟨10, 0⟩, ⟨10, 1⟩, ⟨2, 2⟩]
        [⟨10, 3⟩, ⟨10, 2⟩, ⟨5, 0⟩] Game.Phase.OVER)).1 (by decide)⟩

end FinalResult

section Counting

/-- `remove_seen` on the marked rank itself: decrement when positive, else
leave unchanged. -/
theorem remove_seen_self (d : Strategy.DeckCounter) (r : Nat) :
    (d.remove_seen r).counts r =
      if 0 < d.counts r then d.counts r - 1 else d.counts r := by
  unfold Strategy.DeckCounter.remove_seen
  dsimp only
  by_cases h : 0 < d.counts r
  · rw [if_pos ⟨rfl, h⟩, if_pos h]
  · rw [if_neg (fun hc => h hc.2), if_neg h]

/-- `remove_seen` never increases any count. -/
theorem remove_seen_le (d : Strategy.DeckCounter) (rank r : Nat) :
    (d.remove_seen rank).counts r ≤ d.counts r := by
  unfold Strategy.DeckCounter.remove_seen
  dsimp only
  split_ifs with h
  · obtain ⟨he, hp⟩ := h
    subst he
    omega
  · exact le_rfl

/-- `remove_seen` preserves non-negativity of every count. -/
theorem remove_seen_nonneg (d : Strategy.DeckCounter) (rank : Nat)
    (h : ∀ r, 0 ≤ d.counts r) : ∀ r, 0 ≤ (d.remove_seen rank).counts r := by
  intro r
  unfold Strategy.DeckCounter.remove_seen
  dsimp only
  split_ifs with hc
  · omega
  · exact h r

/-- Non-negativity of every count is preserved by any sequence of
`remove_seen` operations. -/
theorem foldl_remove_seen_nonneg (seq : List Nat) :
    ∀ d : Strategy.DeckCounter, (∀ r, 0 ≤ d.counts r) →
      ∀ r, 0 ≤ (seq.foldl Strategy.DeckCounter.remove_seen d).counts r := by
  induction seq with
  | nil => intro d h r; exact h r
  | cons a t ih => intro d h r; exact ih _ (remove_seen_nonneg d a h) r

/-- The freshly initialized counter is non-negative everywhere. -/
theorem init_counts_nonneg : ∀ r, 0 ≤ Strategy.DeckCounter.init.counts r := by
  intro r
  unfold Strategy.DeckCounter.init
  dsimp only
  split_ifs <;> omega

/-- The freshly initialized counter holds 4 for every rank 1..13. -/
theorem init_counts_eq (r : Nat) (h1 : 1 ≤ r) (h13 : r ≤ 13) :
    Strategy.DeckCounter.init.counts r = 4 := by
  unfold Strategy.DeckCounter.init
  dsimp only
  rw [if_pos ⟨h1, h13⟩]

/-- C8: starting from the initialized model, four `remove_seen` of a rank
bring its count to 0 and a fifth leaves it at 0; no `remove_seen` ever
increments a count, and every count stays non-negative after any sequence
of `remove_seen` operations. -/
theorem claim_C8_mark_seen_floor :
    (∀ r, 1 ≤ r → r ≤ 13 →
      (((((Strategy.DeckCounter.init.remove_seen r).remove_seen r).remove_seen
          r).remove_seen r).counts r = 0 ∧
       ((((((Strategy.DeckCounter.init.remove_seen r).remove_seen r).remove_seen
          r).remove_seen r).remove_seen r).counts r = 0))) ∧
    (∀ (d : Strategy.DeckCounter) (rank r : Nat),
      (d.remove_seen rank).counts r ≤ d.counts r) ∧
    (∀ (seq : List Nat) (r : Nat),
      0 ≤ (seq.foldl Strategy.DeckCounter.remove_seen
            Strategy.DeckCounter.init).counts r) := by
  refine ⟨?_, remove_seen_le, fun seq r => foldl_remove_seen_nonneg seq _ init_counts_nonneg r⟩
  intro r h1 h13
  have e0 := init_counts_eq r h1 h13
  have e1 : (Strategy.DeckCounter.init.remove_seen r).counts r = 3 := by
    rw [remove_seen_self, e0]; norm_num
  have e2 : ((Strategy.DeckCounter.init.remove_seen r).remove_seen r).counts r = 2 := by
    rw [remove_seen_self, e1]; norm_num
  have e3 : (((Strategy.DeckCounter.init.remove_seen r).remove_seen r).remove_seen
      r).counts r = 1 := by
    rw [remove_seen_self, e2]; norm_num
  have e4 : ((((Strategy.DeckCounter.init.remove_seen r).remove_seen r).remove_seen
      r).remove_seen r).counts r = 0 := by
    rw [remove_seen_self, e3]; norm_num
  have e5 : (((((Strategy.DeckCounter.init.remove_seen r).remove_seen r).remove_seen
      r).remove_seen r).remove_seen r).counts r = 0 := by
    rw [remove_seen_self, e4]; norm_num
  exact ⟨e4, e5⟩

/-- Witness for C8 at rank 1. -/
theorem claim_C8_witness :
    (1 ≤ 1 ∧ (1 : Nat) ≤ 13) ∧
    (((((Strategy.DeckCounter.init.remove_seen 1).remove_seen 1).remove_seen
        1).remove_seen 1).counts 1 = 0 ∧
     (((((Strategy.DeckCounter.init.remove_seen 1).remove_seen 1).remove_seen
        1).remove_seen 1).remove_seen 1).counts 1 = 0) :=
  ⟨⟨le_rfl, by norm_num⟩, claim_C8_mark_seen_floor.1 1 le_rfl (by norm_num)⟩

end Counting

section BustProbability

/-- C9: `bust_probability_if_hit` is total on every counter state whose
counts are non-negative (which every reachable state is): when nothing
remains it returns exactly 0 without dividing, and otherwise the quotient
of the busting tally by the total remaining count lies between 0 and 1. -/
theorem claim_C9_bust_probability_total (d : Strategy.DeckCounter) (hand : List Nat)
    (h : ∀ r ∈ Strategy.rankKeys, 0 ≤ d.counts r) :
    (d.total_remaining = 0 → d.bust_probability_if_hit hand = 0) ∧
    0 ≤ d.bust_probability_if_hit hand ∧
    d.bust_probability_if_hit hand ≤ 1 := by
  have hT0 : 0 ≤ d.total_remaining := by
    unfold Strategy.DeckCounter.total_remaining
    refine List.sum_nonneg ?_
    intro x hx
    obtain ⟨r, hr, rfl⟩ := List.mem_map.1 hx
    exact h r hr
  have hB0 : 0 ≤ (Strategy.rankKeys.map (fun rank =>
      if d.counts rank > 0 ∧ (Strategy.hand_value (hand ++ [rank])).1 > 21
      then d.counts rank else 0)).sum := by
    refine List.sum_nonneg ?_
    intro x hx
    obtain ⟨r, hr, rfl⟩ := List.mem_map.1 hx
    split_ifs
    · exact h r hr
    · exact le_rfl
  have hBT : (Strategy.rankKeys.map (fun rank =>
      if d.counts rank > 0 ∧ (Strategy.hand_value (hand ++ [rank])).1 > 21
      then d.counts rank else 0)).sum ≤ d.total_remaining := by
    unfold Strategy.DeckCounter.total_remaining
    refine List.sum_le_sum ?_
    intro r hr
    dsimp only
    split_ifs
    · exact le_rfl
    · exact h r hr
  refine ⟨?_, ?_, ?_⟩
  · intro hT
    unfold Strategy.DeckCounter.bust_probability_if_hit
    rw [if_pos hT]
  · unfold Strategy.DeckCounter.bust_probability_if_hit
    dsimp only
    split_ifs with hT
    · exact le_rfl
    · exact div_nonneg (by exact_mod_cast hB0) (by exact_mod_cast hT0)
  · unfold Strategy.DeckCounter.bust_probability_if_hit
    dsimp only
    split_ifs with hT
    · norm_num
    · have hTpos : (0 : ℚ) < (d.total_remaining : ℚ) := by
        have : 0 < d.total_remaining := lt_of_le_of_ne hT0 (fun e => hT e.symm)
        exact_mod_cast this
      rw [div_le_one hTpos]
      exact_mod_cast hBT

/-- Witness for C9 on the initial counter and the empty hand. -/
theorem claim_C9_witness :
    (∀ r ∈ Strategy.rankKeys, 0 ≤ Strategy.DeckCounter.init.counts r) ∧
    (0 ≤ Strategy.DeckCounter.init.bust_probability_if_hit [] ∧
     Strategy.DeckCounter.init.bust_probability_if_hit [] ≤ 1) :=
  ⟨by decide,
   (claim_C9_bust_probability_total Strategy.DeckCounter.init [] (by decide)).2⟩

/-- C2 fails as stated: the hand [Ace, 10] has `hand_value` total 21 (a
soft 21), yet on the freshly initialized model no hypothetical draw busts
it — the Ace demotes back to 1 — so `bust_probability_if_hit` is 0, not
1. -/
theorem claim_C2_counterexample :
    (Strategy.hand_value [1, 10]).1 = 21 ∧
    Strategy.DeckCounter.init.bust_probability_if_hit [1, 10] = 0 ∧
    Strategy.DeckCounter.init.bust_probability_if_hit [1, 10] ≠ 1 := by
  have hsum0 : (Strategy.rankKeys.map (fun rank =>
      if Strategy.DeckCounter.init.counts rank > 0 ∧
          (Strategy.hand_value ([1, 10] ++ [rank])).1 > 21
       then Strategy.DeckCounter.init.counts rank else 0)).sum = 0 := by
    decide
  have htot : Strategy.DeckCounter.init.total_remaining = 52 := by decide
  have hp : Strategy.DeckCounter.init.bust_probability_if_hit [1, 10] = 0 := by
    unfold Strategy.DeckCounter.bust_probability_if_hit
    dsimp only
    rw [htot, hsum0]
    norm_num
  exact ⟨by decide, hp, by rw [hp]; norm_num⟩

/-- C2, amended to hard totals: for every hand whose `hand_value` is 21
with the soft flag false, the freshly initialized model counts every rank
as busting and `bust_probability_if_hit` returns exactly 1. -/
theorem claim_C2_bust_certain (hand : List Nat)
    (h : Strategy.hand_value hand = (21, false)) :
    Strategy.DeckCounter.init.bust_probability_if_hit hand = 1 := by
  have hraw : (hand.map Strategy.bj_value).sum = 21 := by
    unfold Strategy.hand_value at h
    dsimp only at h
    split_ifs at h with hc
    · exact absurd (congrArg Prod.snd h) (by simp)
    · exact congrArg Prod.fst h
  have hterm : ∀ rank ∈ Strategy.rankKeys,
      (if Strategy.DeckCounter.init.counts rank > 0 ∧
          (Strategy.hand_value (hand ++ [rank])).1 > 21
       then Strategy.DeckCounter.init.counts rank else 0)
        = Strategy.DeckCounter.init.counts rank := by
    intro rank hr
    have hb : 1 ≤ rank ∧ rank ≤ 13 := by
      simp only [Strategy.rankKeys, List.mem_map, List.mem_range] at hr
      obtain ⟨i, hi, rfl⟩ := hr
      omega
    have hv1 : 1 ≤ Strategy.bj_value rank := by
      unfold Strategy.bj_value
      split_ifs <;> omega
    have hsum : ((hand ++ [rank]).map Strategy.bj_value).sum
        = 21 + Strategy.bj_value rank := by
      rw [List.map_append, List.sum_append, hraw]
      simp
    rw [if_pos]
    constructor
    · rw [init_counts_eq rank hb.1 hb.2]
      norm_num
    · unfold Strategy.hand_value
      dsimp only
      rw [hsum]
      rw [if_neg (fun hc => by omega)]
      dsimp only
      omega
  have hsum52 : (Strategy.rankKeys.map (fun rank =>
      if Strategy.DeckCounter.init.counts rank > 0 ∧
          (Strategy.hand_value (hand ++ [rank])).1 > 21
       then Strategy.DeckCounter.init.counts rank else 0)).sum = 52 := by
    rw [List.map_congr_left hterm]
    decide
  have htot : Strategy.DeckCounter.init.total_remaining = 52 := by decide
  unfold Strategy.DeckCounter.bust_probability_if_hit
  dsimp only
  rw [htot, hsum52]
  norm_num

/-- Witness for the amended C2 at the hard-21 hand [10, 5, 6]. -/
theorem claim_C2_witness :
    Strategy.hand_value [10, 5, 6] = (21, false) ∧
    Strategy.DeckCounter.init.bust_probability_if_hit [10, 5, 6] = 1 :=
  ⟨by decide, claim_C2_bust_certain [10, 5, 6] (by decide)⟩

end BustProbability

section WireCodec

/-- Every byte-valued entry read by `byteAt` is below 256 when the buffer
holds byte values. -/
theorem byteAt_lt_256 (data : List Nat) (hb : ∀ b ∈ data, b < 256) (i : Nat) :
    Protocol.byteAt data i < 256 := by
  unfold Protocol.byteAt
  rcases h : data.get? i with _ | b
  · rw [List.getD_eq_get?, h]
    norm_num
  · rw [List.getD_eq_get?, h]
    exact hb b (List.get?_mem h)

/-- C5: for every valid result (0..3), rank (1..13) and suit (0..3),
packing a server payload succeeds, the message is exactly 9 bytes, starts
with the four magic-cookie bytes in big-endian order followed by tag 0x4,
and unpacking it returns exactly the packed fields. -/
theorem claim_C5_server_payload_roundtrip (result rank suit : Nat)
    (h1 : result ≤ 3) (h2 : 1 ≤ rank) (h3 : rank ≤ 13) (h4 : suit ≤ 3) :
    ∃ bs, Protocol.pack_server_payload result rank suit = some bs ∧
      bs.length = 9 ∧
      bs.take 4 = Protocol.cookieBytes ∧
      Protocol.byteAt bs 4 = Protocol.MSG_TYPE_PAYLOAD ∧
      Protocol.unpack_server_payload bs = some ⟨result, rank, suit⟩ := by
  have hhi : rank / 0x100 % 0x100 = 0 := by omega
  have hlo : rank % 0x100 = rank := by omega
  have hpack : Protocol.pack_server_payload result rank suit =
      some [0xab, 0xcd, 0xdc, 0xba, 0x4, result, 0, rank, suit] := by
    unfold Protocol.pack_server_payload Protocol.u16be Protocol.cookieBytes
    rw [if_pos h1, if_pos ⟨h2, h3⟩, if_pos h4, hhi, hlo]
    rfl
  refine ⟨[0xab, 0xcd, 0xdc, 0xba, 0x4, result, 0, rank, suit], hpack, rfl, rfl, rfl, ?_⟩
  have e6 : Protocol.be16 [0xab, 0xcd, 0xdc, 0xba, 0x4, result, 0, rank, suit] 6 = rank := by
    show 0 * 0x100 + rank = rank
    omega
  unfold Protocol.unpack_server_payload
  rw [e6]
  rw [if_neg (by norm_num [Protocol.SERVER_PAYLOAD_MESSAGE_BYTES]),
    if_neg (by norm_num [Protocol.be32, Protocol.byteAt, Protocol.PROTOCOL_MAGIC_COOKIE]),
    if_neg (by norm_num [Protocol.byteAt, Protocol.MSG_TYPE_PAYLOAD]),
    if_neg (not_not_intro ⟨h1, h2, h3, h4⟩)]
  rfl

/-- Witness for C5 at result 0, rank 1, suit 0. -/
theorem claim_C5_witness :
    ((0 : Nat) ≤ 3 ∧ (1 : Nat) ≤ 1 ∧ (1 : Nat) ≤ 13 ∧ (0 : Nat) ≤ 3) ∧
    (∃ bs, Protocol.pack_server_payload 0 1 0 = some bs ∧
      bs.length = 9 ∧
      bs.take 4 = Protocol.cookieBytes ∧
      Protocol.byteAt bs 4 = Protocol.MSG_TYPE_PAYLOAD ∧
      Protocol.unpack_server_payload bs = some ⟨0, 1, 0⟩) :=
  ⟨by norm_num,
   claim_C5_server_payload_roundtrip 0 1 0 (by norm_num) le_rfl (by norm_num) (by norm_num)⟩

/-- C4: decoding is uniformly rejecting and total.  Every decoder returns
an `Option` with a single failure value (no granularity) and reads bytes
only through the total `byteAt` (no out-of-bounds access, no exception);
whenever a decoder accepts, the buffer had exactly the kind's fixed
length, the exact magic cookie (so a change to any cookie byte is
rejected), the expected tag, and fields within their ranges — hence any
buffer violating one of those checks decodes to `none`. -/
theorem claim_C4_decode_reject :
    (∀ data : List Nat, (∀ b ∈ data, b < 256) →
       Protocol.be32 data = Protocol.PROTOCOL_MAGIC_COOKIE →
       Protocol.byteAt data 0 = 0xab ∧ Protocol.byteAt data 1 = 0xcd ∧
       Protocol.byteAt data 2 = 0xdc ∧ Protocol.byteAt data 3 = 0xba) ∧
    (∀ data out, Protocol.unpack_offer data = some out →
       data.length = 39 ∧ Protocol.be32 data = Protocol.PROTOCOL_MAGIC_COOKIE ∧
       Protocol.byteAt data 4 = Protocol.MSG_TYPE_OFFER) ∧
    (∀ data out, Protocol.unpack_request data = some out →
       data.length = 38 ∧ Protocol.be32 data = Protocol.PROTOCOL_MAGIC_COOKIE ∧
       Protocol.byteAt data 4 = Protocol.MSG_TYPE_REQUEST ∧ out.1 ≤ 255) ∧
    (∀ data dec, Protocol.unpack_client_payload_decision data = some dec →
       data.length = 10 ∧ Protocol.be32 data = Protocol.PROTOCOL_MAGIC_COOKIE ∧
       Protocol.byteAt data 4 = Protocol.MSG_TYPE_PAYLOAD ∧
       (data.drop 5 = Protocol.hitttBytes ∧ dec = "Hittt" ∨
        data.drop 5 = Protocol.standBytes ∧ dec = "Stand")) ∧
    (∀ data out, Protocol.unpack_server_payload data = some out →
       data.length = 9 ∧ Protocol.be32 data = Protocol.PROTOCOL_MAGIC_COOKIE ∧
       Protocol.byteAt data 4 = Protocol.MSG_TYPE_PAYLOAD ∧
       out.result ≤ 3 ∧ 1 ≤ out.rank ∧ out.rank ≤ 13 ∧ out.suit ≤ 3) := by
  refine ⟨?_, ?_, ?_, ?_, ?_⟩
  · intro data hb hc
    have b0 := byteAt_lt_256 data hb 0
    have b1 := byteAt_lt_256 data hb 1
    have b2 := byteAt_lt_256 data hb 2
    have b3 := byteAt_lt_256 data hb 3
    unfold Protocol.be32 Protocol.PROTOCOL_MAGIC_COOKIE at hc
    omega
  · intro data out h
    unfold Protocol.unpack_offer at h
    split_ifs at h with h1 h2 h3
    push_neg at h1 h2 h3
    exact ⟨h1, h2, h3⟩
  · intro data out h
    unfold Protocol.unpack_request at h
    split_ifs at h with h1 h2 h3 h4
    push_neg at h1 h2 h3 h4
    obtain rfl : (Protocol.byteAt data 5,
        Protocol.decode_fixed_name_32 (data.drop 6)) = out := Option.some.inj h
    exact ⟨h1, h2, h3, h4⟩
  · intro data dec h
    unfold Protocol.unpack_client_payload_decision at h
    split_ifs at h with h1 h2 h3 h4 h5
    · push_neg at h1 h2 h3
      obtain rfl : "Hittt" = dec := Option.some.inj h
      exact ⟨h1, h2, h3, Or.inl ⟨h4, rfl⟩⟩
    · push_neg at h1 h2 h3
      obtain rfl : "Stand" = dec := Option.some.inj h
      exact ⟨h1, h2, h3, Or.inr ⟨h5, rfl⟩⟩
  · intro data out h
    unfold Protocol.unpack_server_payload at h
    split_ifs at h with h1 h2 h3 h4
    push_neg at h1 h2 h3 h4
    obtain rfl : (⟨Protocol.byteAt data 5, Protocol.be16 data 6,
        Protocol.byteAt data 8⟩ : Protocol.ServerPayload) = out := Option.some.inj h
    exact ⟨h1, h2, h3, h4.1, h4.2.1, h4.2.2.1, h4.2.2.2⟩

/-- Witness for C4 on a concrete accepted server payload. -/
theorem claim_C4_witness :
    Protocol.unpack_server_payload [0xab, 0xcd, 0xdc, 0xba, 0x4, 2, 0, 13, 3] =
      some (⟨2, 13, 3⟩ : Protocol.ServerPayload) ∧
    (([0xab, 0xcd, 0xdc, 0xba, 0x4, 2, 0, 13, 3] : List Nat).length = 9 ∧
     Protocol.be32 [0xab, 0xcd, 0xdc, 0xba, 0x4, 2, 0, 13, 3] =
       Protocol.PROTOCOL_MAGIC_COOKIE ∧
     Protocol.byteAt [0xab, 0xcd, 0xdc, 0xba, 0x4, 2, 0, 13, 3] 4 =
       Protocol.MSG_TYPE_PAYLOAD ∧
     (2 : Nat) ≤ 3 ∧ (1 : Nat) ≤ 13 ∧ (13 : Nat) ≤ 13 ∧ (3 : Nat) ≤ 3) :=
  ⟨by decide, claim_C4_decode_reject.2.2.2.2 [0xab, 0xcd, 0xdc, 0xba, 0x4, 2, 0, 13, 3]
    (⟨2, 13, 3⟩ : Protocol.ServerPayload) (by decide)⟩

end WireCodec

section DecisionPolicy

/-- C7: the decision policy hits unconditionally on totals at most 11,
stands on hard totals at least 17 and on soft totals at least 18, and in
the remaining decision zone hits exactly when the bust probability is at
most the threshold — 0.55 against a strong dealer rank (7,8,9,10,J,Q,K or
Ace), 0.40 against a weak one (2..6), 0.45 with no dealer card known. -/
theorem claim_C7_choose_decision (player_ranks : List Nat)
    (dealer_up_rank : Option Nat) (deck : Strategy.DeckCounter) :
    ((Strategy.hand_value player_ranks).1 ≤ 11 →
      Strategy.choose_decision player_ranks dealer_up_rank deck = "Hittt") ∧
    (17 ≤ (Strategy.hand_value player_ranks).1 →
      (Strategy.hand_value player_ranks).2 = false →
      Strategy.choose_decision player_ranks dealer_up_rank deck = "Stand") ∧
    (18 ≤ (Strategy.hand_value player_ranks).1 →
      (Strategy.hand_value player_ranks).2 = true →
      Strategy.choose_decision player_ranks dealer_up_rank deck = "Stand") ∧
    (¬ (Strategy.hand_value player_ranks).1 ≤ 11 →
     ¬ (17 ≤ (Strategy.hand_value player_ranks).1 ∧
        (Strategy.hand_value player_ranks).2 = false) →
     ¬ (18 ≤ (Strategy.hand_value player_ranks).1 ∧
        (Strategy.hand_value player_ranks).2 = true) →
      ((dealer_up_rank = none →
        (Strategy.choose_decision player_ranks dealer_up_rank deck = "Hittt" ↔
          deck.bust_probability_if_hit player_ranks ≤ 45 / 100)) ∧
       (∀ r, dealer_up_rank = some r → (r = 1 ∨ (7 ≤ r ∧ r ≤ 13)) →
        (Strategy.choose_decision player_ranks dealer_up_rank deck = "Hittt" ↔
          deck.bust_probability_if_hit player_ranks ≤ 55 / 100)) ∧
       (∀ r, dealer_up_rank = some r → 2 ≤ r → r ≤ 6 →
        (Strategy.choose_decision player_ranks dealer_up_rank deck = "Hittt" ↔
          deck.bust_probability_if_hit player_ranks ≤ 40 / 100)))) := by
  unfold Strategy.choose_decision
  refine ⟨?_, ?_, ?_, ?_⟩
  · intro h
    rw [if_pos h]
  · intro h1 h2
    rw [if_neg (by omega), if_pos ⟨h1, h2⟩]
  · intro h1 h2
    have hs : ¬ (17 ≤ (Strategy.hand_value player_ranks).1 ∧
        (Strategy.hand_value player_ranks).2 = false) := by
      intro hc
      rw [h2] at hc
      exact absurd hc.2 (by simp)
    rw [if_neg (by omega), if_neg hs, if_pos ⟨h1, h2⟩]
  · intro h1 h2 h3
    rw [if_neg h1, if_neg h2, if_neg h3]
    refine ⟨?_, ?_, ?_⟩
    · rintro rfl
      dsimp only
      split_ifs with hp
      · simp [hp]
      · simp only [hp, iff_false]
        intro hc
        exact absurd hc (by simp)
    · rintro r rfl hr
      dsimp only
      have hcond : r = 1 ∨ r = 10 ∨ r = 11 ∨ r = 12 ∨ r = 13 ∨ r = 9 ∨ r = 8 ∨ r = 7 := by
        omega
      rw [if_pos hcond]
      split_ifs with hp
      · simp [hp]
      · simp only [hp, iff_false]
        intro hc
        exact absurd hc (by simp)
    · rintro r rfl hr2 hr6
      dsimp only
      have hcond : ¬ (r = 1 ∨ r = 10 ∨ r = 11 ∨ r = 12 ∨ r = 13 ∨ r = 9 ∨ r = 8 ∨ r = 7) := by
        omega
      rw [if_neg hcond]
      split_ifs with hp
      · simp [hp]
      · simp only [hp, iff_false]
        intro hc
        exact absurd hc (by simp)

/-- Witness for C7: hard 13 against a weak dealer 5 sits in the decision
zone with threshold 0.40. -/
theorem claim_C7_witness :
    (¬ (Strategy.hand_value [10, 3]).1 ≤ 11 ∧
     ¬ (17 ≤ (Strategy.hand_value [10, 3]).1 ∧ (Strategy.hand_value [10, 3]).2 = false) ∧
     ¬ (18 ≤ (Strategy.hand_value [10, 3]).1 ∧ (Strategy.hand_value [10, 3]).2 = true) ∧
     (2 : Nat) ≤ 5 ∧ (5 : Nat) ≤ 6) ∧
    (Strategy.choose_decision [10, 3] (some 5) Strategy.DeckCounter.init = "Hittt" ↔
      Strategy.DeckCounter.init.bust_probability_if_hit [10, 3] ≤ 40 / 100) :=
  ⟨⟨by decide, by decide, by decide, by norm_num, by norm_num⟩,
   ((claim_C7_choose_decision [10, 3] (some 5) Strategy.DeckCounter.init).2.2.2
      (by decide) (by decide) (by decide)).2.2 5 rfl (by norm_num) (by norm_num)⟩

end DecisionPolicy

section RoundEngine

/-- A concrete deck for the stand fall-through: the player draws 5 and 6,
the dealer draws 10 (upcard) and 9 (hole card), totalling 19. -/
def c1Deck : Game.Deck :=
  ⟨fun n => if n = 0 then ⟨5, 2⟩ else if n = 1 then ⟨6, 1⟩
    else if n = 2 then ⟨10, 3⟩ else ⟨9, 0⟩, 0⟩

/-- The round reached by `start()` on that deck. -/
def c1Round : Game.BlackjackRound :=
  ((Game.BlackjackRound.mk c1Deck [] [] Game.Phase.INIT).start).2

/-- C1 fails as stated: on a PLAYER-phase round whose dealer's two initial
cards already total 19, applying "Stand" emits TWO events in that same
invocation — the hole-card reveal tagged 0 and then the final outcome
(here LOSS = 2) — and leaves the round in OVER, not DealerTurn; the final
outcome is not deferred to the next engine call. -/
theorem claim_C1_counterexample :
    c1Round.phase = Game.Phase.PLAYER ∧
    17 ≤ (Game.hand_value c1Round.dealer).1 ∧
    (c1Round.apply_decision "Stand").map (fun p => p.1.length) = some 2 ∧
    (c1Round.apply_decision "Stand").map (fun p => p.1.map Prod.fst) = some [0, 2] ∧
    (c1Round.apply_decision "Stand").map (fun p => p.2.phase) = some Game.Phase.OVER := by
  refine ⟨rfl, by decide, by decide, by decide, by decide⟩

/-- C1, amended: applying "Stand" in the PLAYER phase emits the hole-card
reveal AND exactly one dealer action in the same invocation — two events;
when the dealer's hand already totals at least 17 the second event carries
the final outcome and the round ends (OVER) in this very call, otherwise
the dealer draws one card, emitted as NOT_OVER, and the round is in
DealerTurn awaiting the next invocation. -/
theorem claim_C1_stand_two_events (r : Game.BlackjackRound)
    (hph : r.phase = Game.Phase.PLAYER) (hd : 2 ≤ r.dealer.length) :
    ∃ events r', r.apply_decision "Stand" = some (events, r') ∧
      events.length = 2 ∧
      (∃ hole, r.dealer.get? 1 = some hole ∧
        events.get? 0 = some (Game.RESULT_NOT_OVER, hole)) ∧
      ((17 ≤ (Game.hand_value r.dealer).1 ∧
          r'.phase = Game.Phase.OVER ∧ r'.dealer = r.dealer ∧
          (events.get? 1).map Prod.fst =
            some (Game.BlackjackRound.final_result
              ⟨r.deck, r.player, r.dealer, Game.Phase.DEALER⟩)) ∨
       ((Game.hand_value r.dealer).1 < 17 ∧
          r'.phase = Game.Phase.DEALER ∧
          r'.dealer.length = r.dealer.length + 1 ∧
          (events.get? 1).map Prod.fst = some Game.RESULT_NOT_OVER)) := by
  obtain ⟨hole, hhole⟩ : ∃ hole, r.dealer.get? 1 = some hole := by
    cases h : r.dealer.get? 1 with
    | none =>
        rw [List.get?_eq_none] at h
        omega
    | some c => exact ⟨c, rfl⟩
  unfold Game.BlackjackRound.apply_decision
  rw [hph]
  rw [if_neg (by decide), if_pos (by decide), hhole]
  unfold Game.BlackjackRound.dealer_or_over
  dsimp only
  rw [if_pos rfl]
  by_cases h17 : 17 ≤ (Game.hand_value r.dealer).1
  · rw [if_pos h17]
    obtain ⟨last, hlast⟩ : ∃ last, r.dealer.getLast? = some last := by
      cases h : r.dealer.getLast? with
      | none =>
          rw [List.getLast?_eq_none_iff] at h
          rw [h] at hd
          simp at hd
      | some c => exact ⟨c, rfl⟩
    rw [hlast]
    refine ⟨_, _, rfl, rfl, ⟨hole, rfl, rfl⟩, Or.inl ⟨h17, rfl, rfl, rfl⟩⟩
  · rw [if_neg h17]
    unfold Game.BlackjackRound.dealer_draw Game.Deck.draw
    refine ⟨_, _, rfl, rfl, ⟨hole, rfl, rfl⟩, Or.inr ⟨by omega, rfl, by simp, rfl⟩⟩

/-- Witness for the amended C1 on the concrete round. -/
theorem claim_C1_witness :
    (c1Round.phase = Game.Phase.PLAYER ∧ 2 ≤ c1Round.dealer.length) ∧
    (∃ events r', c1Round.apply_decision "Stand" = some (events, r') ∧
      events.length = 2 ∧
      (∃ hole, c1Round.dealer.get? 1 = some hole ∧
        events.get? 0 = some (Game.RESULT_NOT_OVER, hole)) ∧
      ((17 ≤ (Game.hand_value c1Round.dealer).1 ∧
          r'.phase = Game.Phase.OVER ∧ r'.dealer = c1Round.dealer ∧
          (events.get? 1).map Prod.fst =
            some (Game.BlackjackRound.final_result
              ⟨c1Round.deck, c1Round.player, c1Round.dealer, Game.Phase.DEALER⟩)) ∨
       ((Game.hand_value c1Round.dealer).1 < 17 ∧
          r'.phase = Game.Phase.DEALER ∧
          r'.dealer.length = c1Round.dealer.length + 1 ∧
          (events.get? 1).map Prod.fst = some Game.RESULT_NOT_OVER))) :=
  ⟨⟨rfl, by decide⟩, claim_C1_stand_two_events c1Round rfl (by decide)⟩

end RoundEngine

section EngineSafety

/-- The DEALER/already-over tail of `apply_decision` never fails — and both
hands keep at least two cards — whenever both hands already hold at least
two cards. -/
theorem dealer_or_over_total (out1 : List (Nat × Game.Card)) (r : Game.BlackjackRound)
    (hp : 2 ≤ r.player.length) (hd : 2 ≤ r.dealer.length) :
    ∃ out r', Game.BlackjackRound.dealer_or_over out1 r = some (out, r') ∧
      2 ≤ r'.player.length ∧ 2 ≤ r'.dealer.length := by
  have hne : r.dealer ≠ [] := by
    intro h
    rw [h] at hd
    simp at hd
  obtain ⟨last, hlast⟩ : ∃ last, r.dealer.getLast? = some last := by
    cases h : r.dealer.getLast? with
    | none =>
        rw [List.getLast?_eq_none_iff] at h
        exact absurd h hne
    | some c => exact ⟨c, rfl⟩
  unfold Game.BlackjackRound.dealer_or_over
  by_cases hph : r.phase = Game.Phase.DEALER
  · rw [if_pos hph]
    by_cases h17 : 17 ≤ (Game.hand_value r.dealer).1
    · rw [if_pos h17, hlast]
      exact ⟨_, _, rfl, hp, hd⟩
    · rw [if_neg h17]
      unfold Game.BlackjackRound.dealer_draw Game.Deck.draw
      refine ⟨_, _, rfl, hp, ?_⟩
      simp only [List.length_append, List.length_cons, List.length_nil]
      omega
  · rw [if_neg hph, if_pos hne, hlast]
    exact ⟨_, _, rfl, hp, hd⟩

/-- C10: on a freshly constructed round (INIT phase, both hands empty)
every decision falls through to the already-over tail and performs the
source's `[-1]` lookup on an empty hand — an out-of-bounds access, `none`
in the embedding; `start()` always leaves exactly two cards in each hand,
and from any state with at least two cards per hand `apply_decision`
always succeeds (every last-card lookup is in bounds) and preserves that
bound. -/
theorem claim_C10_apply_decision_safety :
    (∀ (deck : Game.Deck) (dec : String),
      (Game.BlackjackRound.mk deck [] [] Game.Phase.INIT).apply_decision dec = none) ∧
    (∀ r0 : Game.BlackjackRound,
      (r0.start).2.player.length = 2 ∧ (r0.start).2.dealer.length = 2 ∧
      (r0.start).2.phase = Game.Phase.PLAYER) ∧
    (∀ (r : Game.BlackjackRound) (dec : String),
      2 ≤ r.player.length → 2 ≤ r.dealer.length →
      ∃ out r', r.apply_decision dec = some (out, r') ∧
        2 ≤ r'.player.length ∧ 2 ≤ r'.dealer.length) := by
  refine ⟨?_, ?_, ?_⟩
  · intro deck dec
    rfl
  · intro r0
    exact ⟨rfl, rfl, rfl⟩
  · intro r dec hp hd
    unfold Game.BlackjackRound.apply_decision
    by_cases hph : r.phase = Game.Phase.PLAYER
    · rw [hph]
      by_cases hdec1 : dec = "Hittt"
      · subst hdec1
        rw [if_pos (by decide)]
        unfold Game.BlackjackRound.player_hit Game.Deck.draw
        dsimp only
        by_cases hbust : (Game.hand_value (r.player ++ [r.deck.stream r.deck.pos])).1 > 21
        · rw [if_pos hbust]
          refine ⟨_, _, rfl, ?_, hd⟩
          simp only [List.length_append, List.length_cons, List.length_nil]
          omega
        · rw [if_neg hbust]
          refine ⟨_, _, rfl, ?_, hd⟩
          simp only [List.length_append, List.length_cons, List.length_nil]
          omega
      · by_cases hdec2 : dec = "Stand"
        · subst hdec2
          rw [if_neg (by decide), if_pos (by decide)]
          obtain ⟨hole, hhole⟩ : ∃ hole, r.dealer.get? 1 = some hole := by
            cases h : r.dealer.get? 1 with
            | none =>
                rw [List.get?_eq_none] at h
                omega
            | some c => exact ⟨c, rfl⟩
          rw [hhole]
          exact dealer_or_over_total _ _ hp hd
        · rw [if_neg (by simp [hdec1]), if_neg (by simp [hdec2])]
          exact dealer_or_over_total _ _ hp hd
    · rw [if_neg hph, if_neg (by exact fun hc => hph hc.1),
        if_neg (by exact fun hc => hph hc.1)]
      exact dealer_or_over_total _ _ hp hd

/-- A concrete started round for the C10 witness. -/
def c10Round : Game.BlackjackRound :=
  ((Game.BlackjackRound.mk ⟨fun _ => ⟨3, 1⟩, 0⟩ [] [] Game.Phase.INIT).start).2

/-- Witness for C10 on a concrete started round and the "Hittt" decision. -/
theorem claim_C10_witness :
    (2 ≤ c10Round.player.length ∧ 2 ≤ c10Round.dealer.length) ∧
    (∃ out r', c10Round.apply_decision "Hittt" = some (out, r') ∧
      2 ≤ r'.player.length ∧ 2 ≤ r'.dealer.length) :=
  ⟨⟨by decide, by decide⟩,
   claim_C10_apply_decision_safety.2.2 c10Round "Hittt" (by decide) (by decide)⟩

end EngineSafety
